import Mathlib

/-!
Verification development for the doccelerate documentation pipeline.

Strings are modelled as `List Char` (Python `str` slicing and searching is
by code point, which matches `List Char` exactly).  Floating point values
from the Python source are modelled as exact rationals.  External
collaborators (the OpenAI tokenizer/embedding provider, `json.loads`,
`hashlib.sha256`, the database and the object store) are passed in as
explicit oracle parameters, mirroring the black-box treatment in the spec.
-/

namespace Docc

/-- Python `str.splitlines`, restricted to the line terminators relevant to
this code base: `"\n"`, `"\r\n"` (a single break) and a lone `"\r"`.
Python additionally treats `\v`, `\f`, `\x1c`-`\x1e`, `\x85`, ` ` and
` ` as terminators; none of those occur in the properties verified
here, so the model omits them.  A trailing terminator produces no trailing
empty line, exactly as in Python. -/
def splitlinesPy : List Char → List (List Char)
  | [] => []
  | '\n' :: rest => [] :: splitlinesPy rest
  | '\r' :: '\n' :: rest => [] :: splitlinesPy rest
  | '\r' :: rest => [] :: splitlinesPy rest
  | c :: rest =>
    match splitlinesPy rest with
    | [] => [[c]]
    | l :: ls => (c :: l) :: ls

/-- Python `"\n".join(lines)` at the character-list level. -/
def joinLines (ls : List (List Char)) : List Char :=
  List.intercalate ['\n'] ls

/-- Python `haystack.find(needle)`: index of the first occurrence, `none`
standing for Python's `-1`.  `needle in haystack` is `(pyFind ..).isSome`. -/
def pyFind (needle : List Char) : List Char → Option Nat
  | [] => if needle.isPrefixOf ([] : List Char) then some 0 else none
  | c :: rest =>
    if needle.isPrefixOf (c :: rest) then some 0
    else (pyFind needle rest).map (· + 1)

/-- Python `haystack.find(needle, start)`. -/
def pyFindFrom (needle hay : List Char) (start : Nat) : Option Nat :=
  (pyFind needle (hay.drop start)).map (· + start)

/-- Python `list.insert(k, x)`: clamps `k` to the list length (the source
only ever passes `k ≥ 0`). -/
def pyInsertAt (k : Nat) (x : α) (l : List α) : List α :=
  l.take k ++ x :: l.drop k

/-- Occurrence count of a character, used to model
`len(text.split('\n')) - 1`, which equals the number of `'\n'` characters
in `text`. -/
def countChar (c : Char) (s : List Char) : Nat :=
  s.count c

/-- Scanning core of Python `str.replace` for a non-empty pattern: walk
left to right, replacing each (non-overlapping) occurrence of `f` by `r`
and continuing after it. -/
def replaceScan (f r : List Char) : List Char → List Char
  | [] => []
  | c :: rest =>
    if h : f ≠ [] ∧ f.isPrefixOf (c :: rest) then
      r ++ replaceScan f r ((c :: rest).drop f.length)
    else
      c :: replaceScan f r rest
termination_by s => s.length
decreasing_by
  · simp only [List.length_drop]
    have hf : 0 < f.length := List.length_pos.mpr h.1
    simp only [List.length_cons]
    omega
  · simp only [List.length_cons]
    omega

/-- Python `s.replace(f, r)` including the empty-pattern special case
(`"ab".replace("", "-") = "-a-b-"`). -/
def pyReplace (f r s : List Char) : List Char :=
  if f = [] then r ++ (s.map (fun c => c :: r)).flatten
  else replaceScan f r s

/-- The four operation kinds of the edit mini-language. -/
inductive OpType where
  | insertAfter
  | insertBefore
  | replace
  | deleteBlock
deriving DecidableEq, Repr

/-- A validated operation.  The pydantic validator guarantees `find` on all
kinds, `insert` on the insert kinds, `replace` on replace and `until` on
deleteBlock; fields that the validator does not require for a kind are
ignored by the applier, so they are carried as plain strings here. -/
structure Operation where
  file : String
  op : OpType
  findText : String
  insertText : String
  replaceText : String
  untilText : String
deriving DecidableEq, Repr

/-- `OperationApplier._apply_insert_after`: find the first occurrence of
`findT` in the `'\n'`-joined content, compute the line on which the match
ends (via the `'\n'` count of the prefix up to the match end), and insert
`insT` as a new line right after that line. -/
def applyInsertAfterL (lines : List (List Char)) (findT insT : List Char) :
    Option (List Char) :=
  let full := joinLines lines
  match pyFind findT full with
  | none => none
  | some idx =>
    let matchEnd := idx + findT.length
    let targetIdx := countChar '\n' (full.take matchEnd)
    some (joinLines (pyInsertAt (targetIdx + 1) insT lines))

/-- `OperationApplier._apply_insert_before`: find the first occurrence of
`findT`, compute the line on which the match starts, and insert `insT` as a
new line at that index (pushing the matched line down). -/
def applyInsertBeforeL (lines : List (List Char)) (findT insT : List Char) :
    Option (List Char) :=
  let full := joinLines lines
  match pyFind findT full with
  | none => none
  | some idx =>
    let targetIdx := countChar '\n' (full.take idx)
    some (joinLines (pyInsertAt targetIdx insT lines))

/-- `OperationApplier._apply_replace`: require `findT` to occur, then
replace every occurrence in the joined content. -/
def applyReplaceL (lines : List (List Char)) (findT replT : List Char) :
    Option (List Char) :=
  let full := joinLines lines
  match pyFind findT full with
  | none => none
  | some _ => some (pyReplace findT replT full)

/-- `OperationApplier._apply_delete_block`: first occurrence of `findT` is
the block start; first occurrence of `untilT` at or after it is the block
end; delete the span including both anchors. -/
def applyDeleteBlockL (lines : List (List Char)) (findT untilT : List Char) :
    Option (List Char) :=
  let full := joinLines lines
  match pyFind findT full with
  | none => none
  | some startPos =>
    match pyFindFrom untilT full startPos with
    | none => none
    | some endPos0 => some (full.take startPos ++ full.drop (endPos0 + untilT.length))

/-- Dispatch of `OperationApplier.apply_operation_to_content` after the
initial `content.splitlines()`. -/
def applyOpLines (lines : List (List Char)) (op : Operation) : Option (List Char) :=
  match op.op with
  | .insertAfter => applyInsertAfterL lines op.findText.data op.insertText.data
  | .insertBefore => applyInsertBeforeL lines op.findText.data op.insertText.data
  | .replace => applyReplaceL lines op.findText.data op.replaceText.data
  | .deleteBlock => applyDeleteBlockL lines op.findText.data op.untilText.data

/-- `OperationApplier.apply_operation_to_content`: split the content into
lines, then apply the operation; `none` models `OperationApplyError`. -/
def applyOperationToContent (content : String) (op : Operation) : Option String :=
  (applyOpLines (splitlinesPy content.data) op).map fun l => String.mk l

/-- Conversion of `"\r\n"` sequences to `"\n"`, used to state the
newline-normalisation behaviour of the appliers. -/
def crlfToLf : List Char → List Char
  | [] => []
  | '\r' :: '\n' :: rest => '\n' :: crlfToLf rest
  | c :: rest => c :: crlfToLf rest

/-- Every `'\r'` in the list is immediately followed by `'\n'` (the input
uses only `"\n"` and `"\r\n"` as separators, no lone carriage returns). -/
def noLoneCR : List Char → Bool
  | [] => true
  | '\r' :: '\n' :: rest => noLoneCR rest
  | '\r' :: _ => false
  | _ :: rest => noLoneCR rest

/-! ## Elbow analyzer (`elbow_method.py`)

Similarity scores are floats in the source; they are modelled as exact
rationals.  `np.argmax` returns the first index attaining the maximum;
comparisons of perpendicular distances are carried out on squared
distances, which is equivalent because squaring is strictly monotone on
the nonnegative distances involved, and keeps the model inside `ℚ`. -/

/-- First index of the maximum element (`np.argmax`; ties resolved to the
earliest index).  Returns 0 on the empty list (unreachable in the source). -/
def argmaxQ (l : List ℚ) : Nat :=
  match l with
  | [] => 0
  | x :: xs =>
    (xs.foldl (fun (acc : Nat × Nat × ℚ) y =>
      if acc.2.2 < y then (acc.1 + 1, acc.1, y) else (acc.1 + 1, acc.2.1, acc.2.2))
      (1, 0, x)).2.1

/-- `ElbowAnalyzer._detect_knee_point`: perpendicular distance of every
interior point `(i, sᵢ)` from the line joining the first and last points;
the knee is the point of maximum distance, reported as a 1-based rank.
`distSq` is the squared perpendicular distance (with the `line_len == 0`
guard of the source, where the raw point distance is used instead). -/
def detectKneePoint (scores : List ℚ) : Nat :=
  if scores.length < 3 then 0
  else
    let n := scores.length
    let s0 := scores.headD 0
    let sl := scores.getLastD 0
    let lineSq : ℚ := ((n : ℚ) - 1) ^ 2 + (sl - s0) ^ 2
    let distSq : Nat → ℚ := fun i =>
      let pSq : ℚ := (i : ℚ) ^ 2 + (scores.getD i 0 - s0) ^ 2
      if lineSq = 0 then pSq
      else pSq - ((i : ℚ) * ((n : ℚ) - 1) + (scores.getD i 0 - s0) * (sl - s0)) ^ 2 / lineSq
    let distances := (List.range (n - 2)).map fun j => distSq (j + 1)
    (argmaxQ distances + 1) + 1

/-- Successive differences `l[i] - l[i+1]` of a list. -/
def succDiffs (l : List ℚ) : List ℚ :=
  List.zipWith (fun a b => a - b) l l.tail

/-- `ElbowAnalyzer._detect_rate_change_elbow` with `sensitivity = 2`:
first and second differences of the scores; the first index whose second
difference exceeds `mean + 2·std` is reported offset by 2.  The float
comparison `d > mean + 2·std` (with `std = √variance`) is expressed
equivalently without square roots as `mean < d ∧ 4·variance < (d - mean)²`;
the `std == 0` guard is likewise `variance = 0`. -/
def detectRateChange (scores : List ℚ) : Nat :=
  if scores.length < 4 then 0
  else
    let fd := succDiffs scores
    let sd := succDiffs fd
    if sd.isEmpty then 0
    else
      let m : ℚ := sd.sum / (sd.length : ℚ)
      let varc : ℚ := (sd.map fun x => (x - m) ^ 2).sum / (sd.length : ℚ)
      if varc = 0 then 0
      else
        match sd.findIdx? (fun d => decide (m < d) && decide (4 * varc < (d - m) ^ 2)) with
        | some i => i + 2
        | none => 0

/-- `ElbowAnalyzer._detect_percentage_drop_elbow` with threshold 0.3:
first index `i ≥ 1` where `(s₀ - sᵢ)/s₀ ≥ 0.3` (only tested when
`s₀ > 0`, as in the source). -/
def detectPercentageDrop (scores : List ℚ) : Nat :=
  if scores.length < 2 then 0
  else
    let s0 := scores.headD 0
    match scores.tail.findIdx?
        (fun si => decide (0 < s0) && decide ((3 : ℚ) / 10 ≤ (s0 - si) / s0)) with
    | some i => i + 1
    | none => 0

/-- `int(np.median(..))` on a nonempty list of natural numbers: sort
ascending, take the middle element for odd length; for even length the two
middle elements are averaged and the float result truncated, which for
naturals is floor division by 2. -/
def medianNat (l : List Nat) : Nat :=
  let s := l.insertionSort (· ≤ ·)
  let n := s.length
  if n % 2 = 1 then s.getD (n / 2) 0
  else (s.getD (n / 2 - 1) 0 + s.getD (n / 2) 0) / 2

/-- `ElbowAnalyzer._adaptive_threshold_fallback`. -/
def adaptiveFallback (minDocs maxDocs : Nat) (scores : List ℚ) : Nat :=
  if scores.isEmpty then minDocs
  else if 5 ≤ scores.length ∧ scores.headD 0 - scores.getLastD 0 < (1 : ℚ) / 10 then
    min scores.length (maxDocs / 2)
  else
    min scores.length (max minDocs (scores.length / 3))

/-- The `scores[:max_docs]` truncation of `find_elbow_point`. -/
def truncatedScores (maxDocs : Nat) (similarityScores : List ℚ) : List ℚ :=
  similarityScores.take maxDocs

/-- The significance filter `[s for s in scores if s >= threshold]`. -/
def filteredScores (sig : ℚ) (scores : List ℚ) : List ℚ :=
  scores.filter fun s => decide (sig ≤ s)

/-- The `relevant_scores` list of `find_elbow_point`: the significance
filter, falling back to the first `min_docs` truncated scores when fewer
than `min_docs` survive the filter. -/
def relevantScores (minDocs maxDocs : Nat) (sig : ℚ) (similarityScores : List ℚ) :
    List ℚ :=
  if (filteredScores sig (truncatedScores maxDocs similarityScores)).length < minDocs then
    (if minDocs ≤ (truncatedScores maxDocs similarityScores).length then
      (truncatedScores maxDocs similarityScores).take minDocs
    else truncatedScores maxDocs similarityScores)
  else filteredScores sig (truncatedScores maxDocs similarityScores)

/-- The ensemble results: the three detectors, keeping only those that
fired (returned a value `> 0`). -/
def ensembleMethods (scores : List ℚ) : List Nat :=
  [detectKneePoint scores, detectRateChange scores,
    detectPercentageDrop scores].filter fun p => decide (0 < p)

/-- `ElbowAnalyzer.find_elbow_point`: the safety floor for short inputs,
the `max_docs` truncation, the significance filter with its `min_docs`
fallback, the three-detector ensemble combined by the truncated median and
clamped to `[min_docs, len(relevant)]`, and the adaptive fallback when no
detector fires.  Returns the chosen count together with the method tag
from the diagnostics dictionary. -/
def findElbowPoint (minDocs maxDocs : Nat) (sig : ℚ) (similarityScores : List ℚ) :
    Nat × String :=
  if similarityScores.isEmpty ∨ similarityScores.length < minDocs then
    (minDocs, "fallback_min")
  else if (relevantScores minDocs maxDocs sig similarityScores).length ≤ minDocs then
    ((relevantScores minDocs maxDocs sig similarityScores).length, "threshold_filter")
  else if (ensembleMethods (relevantScores minDocs maxDocs sig similarityScores)).isEmpty then
    (adaptiveFallback minDocs maxDocs (relevantScores minDocs maxDocs sig similarityScores),
      "adaptive_fallback")
  else
    (max minDocs
      (min (medianNat (ensembleMethods (relevantScores minDocs maxDocs sig similarityScores)))
        (relevantScores minDocs maxDocs sig similarityScores).length),
      "ensemble")

/-! ## Tokenizer / chunker (`openai_client.py`)

The tiktoken encoder is an external collaborator; it is modelled as a pair
of functions.  The `while start < len(tokens)` loop is modelled with
explicit fuel, `none` standing for non-termination of the Python loop; the
public wrapper supplies fuel `len(tokens) + 1`, which the termination
theorem shows sufficient whenever `max_tokens > overlap_tokens`. -/

/-- An abstract token encoder/decoder pair (tiktoken `cl100k_base`). -/
structure Tokenizer where
  encode : String → List Nat
  decode : List Nat → String

/-- Characters stripped by Python `str.strip()` (ASCII portion; the exotic
unicode whitespace does not occur in the verified properties). -/
def pyIsSpace (c : Char) : Bool :=
  c = ' ' || c = '\t' || c = '\n' || c = '\r' || c = '\x0b' || c = '\x0c'

/-- Python `str.strip()`. -/
def pyStrip (s : String) : String :=
  String.mk (((s.data.dropWhile pyIsSpace).reverse.dropWhile pyIsSpace).reverse)

/-- Python `haystack.rfind(needle)`: start index of the rightmost
occurrence, `none` for `-1`. -/
def pyRfind (needle hay : List Char) : Option Nat :=
  (List.range (hay.length + 1)).foldl
    (fun acc i => if needle.isPrefixOf (hay.drop i) then some i else acc) none

/-- Python slice `tokens[start:stop]`. -/
def pySlice (l : List Nat) (start stop : Nat) : List Nat :=
  (l.drop start).take (stop - start)

/-- The sentence-boundary search of `split_text_by_tokens`: the last ~20%
of the decoded window (`chunk_text[-len(chunk_text)//5:]`, i.e. the last
`⌈n/5⌉` characters because Python floor-divides the negated length), the
rightmost occurrence of `.`, `!`, `?` or `"\n\n"` in it (folded with
strict `>` starting from `-1`, i.e. the maximum), and the re-encoded
prefix length used as the adjusted window end.  Returns the adjusted end
for a window `[start, end0)` over `tokens`. -/
def adjustEnd (tok : Tokenizer) (tokens : List Nat) (start end0 : Nat) : Nat :=
  let chunkText := (tok.decode (pySlice tokens start end0)).data
  let n := chunkText.length
  let lp := (n + 4) / 5
  let lastPart := chunkText.drop (n - lp)
  let bestBreak : Int :=
    [['.'], ['!'], ['?'], ['\n', '\n']].foldl
      (fun acc sentEnd =>
        match pyRfind sentEnd lastPart with
        | some p => if (p : Int) > acc then (p : Int) else acc
        | none => acc) (-1)
  if 0 < bestBreak then
    let prefixLen : Nat :=
      if bestBreak + 1 = (lastPart.length : Int) then 0
      else n - lastPart.length + (bestBreak + 1).toNat
    let adjusted := start + (tok.encode (String.mk (chunkText.take prefixLen))).length
    min adjusted tokens.length
  else end0

/-- Final end of the window `[start, min(start + maxTokens, len))`: the
window end is snapped to a sentence boundary only when the window is not
the final one. -/
def windowEnd (tok : Tokenizer) (tokens : List Nat) (start maxTokens : Nat) : Nat :=
  if min (start + maxTokens) tokens.length < tokens.length then
    adjustEnd tok tokens start (min (start + maxTokens) tokens.length)
  else min (start + maxTokens) tokens.length

/-- One-loop-at-a-time model of the `while start < len(tokens)` loop of
`split_text_by_tokens`.  Each iteration takes the window ending at
`windowEnd`, emits the stripped decoded window, and advances `start` to
`max(start + maxTokens - overlapTokens, end)` (computed over `ℤ` in
Python; the truncated `Nat` subtraction agrees because the window end is
never negative). -/
def splitLoop (tok : Tokenizer) (tokens : List Nat) (maxTokens overlapTokens : Nat) :
    Nat → Nat → Option (List String)
  | 0, _ => none
  | fuel + 1, start =>
    if start < tokens.length then
      (splitLoop tok tokens maxTokens overlapTokens fuel
          (max ((start + maxTokens) - overlapTokens)
            (windowEnd tok tokens start maxTokens))).map
        (pyStrip (tok.decode
          (pySlice tokens start (windowEnd tok tokens start maxTokens))) :: ·)
    else some []

/-- `OpenAIService.split_text_by_tokens`; `none` models divergence of the
Python loop (possible only when `max_tokens ≤ overlap_tokens`). -/
def splitTextByTokens (tok : Tokenizer) (text : String)
    (maxTokens overlapTokens : Nat) : Option (List String) :=
  let tokens := tok.encode text
  splitLoop tok tokens maxTokens overlapTokens (tokens.length + 1) 0

/-- A concrete character-level tokenizer, used only to instantiate the
abstract encoder at concrete inputs. -/
def charTokenizer : Tokenizer :=
  ⟨fun s => s.data.map Char.toNat, fun l => String.mk (l.map Char.ofNat)⟩

/-! ## Merkle synchronizer (`merkle_tree_service.py`)

`hashlib.sha256` is an external pure function and is abstracted as a
parameter; the verified content is the deterministic preprocessing
(tuple sort and `"path:hash"` concatenation) feeding it. -/

/-- Lexicographic order on `(path, content_hash)` tuples, as used by
Python `sorted` on 2-tuples of strings. -/
def pairLe (a b : String × String) : Prop :=
  a.1 < b.1 ∨ (a.1 = b.1 ∧ a.2 ≤ b.2)

instance : DecidableRel pairLe := fun a b =>
  inferInstanceAs (Decidable (_ ∨ _))

instance : IsTotal (String × String) pairLe where
  total a b := by
    rcases lt_trichotomy a.1 b.1 with h | h | h
    · exact Or.inl (Or.inl h)
    · rcases le_total a.2 b.2 with h2 | h2
      · exact Or.inl (Or.inr ⟨h, h2⟩)
      · exact Or.inr (Or.inr ⟨h.symm, h2⟩)
    · exact Or.inr (Or.inl h)

instance : IsTrans (String × String) pairLe where
  trans a b c hab hbc := by
    rcases hab with h1 | ⟨h1, h1'⟩
    · rcases hbc with h2 | ⟨h2, _⟩
      · exact Or.inl (h1.trans h2)
      · exact Or.inl (h2 ▸ h1)
    · rcases hbc with h2 | ⟨h2, h2'⟩
      · exact Or.inl (h1 ▸ h2)
      · exact Or.inr ⟨h1.trans h2, h1'.trans h2'⟩

instance : IsAntisymm (String × String) pairLe where
  antisymm a b hab hba := by
    rcases hab with h1 | ⟨h1, h1'⟩
    · rcases hba with h2 | ⟨h2, _⟩
      · exact absurd (h1.trans h2) (lt_irrefl _)
      · exact absurd h1 (h2 ▸ lt_irrefl _)
    · rcases hba with h2 | ⟨_, h2'⟩
      · exact absurd h2 (h1 ▸ lt_irrefl _)
      · exact Prod.ext h1 (le_antisymm h1' h2')

/-- Python `sorted` on the extracted `(path, content_hash)` tuples. -/
def sortedPairs (l : List (String × String)) : List (String × String) :=
  l.insertionSort pairLe

/-- The string hashed by `MerkleTreeService._calculate_root_hash`: the
`"path:hash"` rendering of each pair, concatenated in sorted order with no
separator between pairs. -/
def rootHashInput (l : List (String × String)) : String :=
  String.join ((sortedPairs l).map fun ph => ph.1 ++ ":" ++ ph.2)

/-- `MerkleTreeService._calculate_root_hash`, with sha256 hex digest
abstracted as `sha`. -/
def calculateRootHash (sha : String → String) (l : List (String × String)) : String :=
  sha (rootHashInput l)

/-! ## Content-addressed chunk store (`chunk_service.py`)

The database chunk table is modelled as a list of rows whose primary key
is the content hash; the embedding provider and sha256 are oracles.
`_store_new_chunk`'s `INSERT .. ON CONFLICT (hash) DO NOTHING` is an
insert-if-absent. -/

/-- A row of the `chunk` table. -/
structure ChunkRow where
  hash : String
  content : String
  embedding : List ℚ
  tokenCount : Nat
deriving DecidableEq, Repr

/-- The `SELECT .. WHERE hash = $1 LIMIT 1` existence probe. -/
def findChunkByHash (db : List ChunkRow) (h : String) : Option ChunkRow :=
  db.find? fun r => r.hash == h

/-- `ChunkService._store_new_chunk` (`ON CONFLICT (hash) DO NOTHING`). -/
def storeNewChunk (db : List ChunkRow) (h content : String)
    (emb : List ℚ) (tc : Nat) : List ChunkRow :=
  if db.any (fun r => r.hash == h) then db
  else db ++ [⟨h, content, emb, tc⟩]

/-- `ChunkService._process_single_chunk` restricted to its chunk-store
effect: probe by hash; if absent, call the embedding provider (an oracle
returning `none` on failure, in which case the chunk is skipped and
nothing is stored) and insert the new row.  Returns the new table, the
number of embedding calls made (0 or 1), and whether chunk data was
produced. -/
def processSingleChunk (sha : String → String) (embed : String → Option (List ℚ))
    (countTok : String → Nat) (db : List ChunkRow) (content : String) :
    List ChunkRow × Nat × Bool :=
  let h := sha content
  match findChunkByHash db h with
  | some _ => (db, 0, true)
  | none =>
    match embed content with
    | none => (db, 1, false)
    | some emb => (storeNewChunk db h content emb (countTok content), 1, true)

/-! ## Indexing orchestrator (`indexing_orchestrator.py`,
`file_processing_service.py`)

The database, object store, git clone and provider are oracles collected
in `IndexOracles`.  `runIndexing` mirrors the control flow of
`IndexingOrchestrator.run_indexing`: the soft/hard branch, the
fail-fast of `process_files_from_storage` on an empty file table, the
chunking/embedding stage, and the single absorbing failed state that
records the exception message on the job. -/

/-- A `file` table row as used by the soft re-index path. -/
structure StoredFile where
  path : String
  contentHash : String
  storageKey : String
deriving DecidableEq, Repr

/-- One entry of the `files_data` list both index modes converge on. -/
structure FileData where
  path : String
  content : String
  contentHash : String
  storageKey : String
deriving DecidableEq, Repr

/-- External collaborators of one indexing run. -/
structure IndexOracles where
  storedFiles : List StoredFile
  storageGet : String → Option String
  hardResult : Except String (List FileData)
  sha : String → String
  embed : String → Option (List ℚ)
  countTok : String → Nat
  tok : Tokenizer
  chunkDb : List ChunkRow

/-- The `storage_key[5:] if storage_key.startswith('docs/')` adjustment. -/
def stripDocsPrefix (key : String) : String :=
  if "docs/".data.isPrefixOf key.data then String.mk (key.data.drop 5) else key

/-- `FileProcessingService.process_files_from_storage`: fail fast when the
repository has no stored files, otherwise re-read each file's content from
the content store, skipping files whose content cannot be fetched or is
empty. -/
def processFilesFromStorage (o : IndexOracles) (repoId : String) :
    Except String (List FileData) :=
  if o.storedFiles.isEmpty then
    .error ("No files found for repository " ++ repoId ++ ". Cannot perform soft re-index.")
  else
    .ok (o.storedFiles.filterMap fun f =>
      match o.storageGet (stripDocsPrefix f.storageKey) with
      | none => none
      | some c => if c = "" then none else some ⟨f.path, c, f.contentHash, f.storageKey⟩)

/-- `ChunkService.process_chunks_for_files` restricted to its chunk-store
effect: split every file with the default budgets (1000/100 — termination
at these budgets is the content of the chunker termination theorem; the
`getD []` default is unreachable) and run each chunk through
`processSingleChunk`, threading the table and counting embedding calls. -/
def processChunksForFiles (o : IndexOracles) (files : List FileData) :
    List ChunkRow × Nat :=
  files.foldl
    (fun acc f =>
      ((splitTextByTokens o.tok f.content 1000 100).getD []).foldl
        (fun acc2 c =>
          let r := processSingleChunk o.sha o.embed o.countTok acc2.1 c
          (r.1, acc2.2 + r.2.1))
        acc)
    (o.chunkDb, 0)

/-- Outcome of one indexing run: final job status and error, the progress
steps reported, and the number of embedding calls made. -/
structure IndexOutcome where
  status : String
  error : Option String
  steps : List String
  embedCalls : Nat
deriving Repr

/-- `IndexingOrchestrator.run_indexing`: choose the soft or hard file
source, then chunk/embed, store, and update the Merkle tree; any raised
error is absorbed into the failed terminal job state carrying the
exception message, and no later stage runs. -/
def runIndexing (o : IndexOracles) (repoId : String) (softReindex : Bool) :
    IndexOutcome :=
  let fileSteps := if softReindex then ["fetching_existing_files"] else ["cloning", "processing_files"]
  let filesRes := if softReindex then processFilesFromStorage o repoId else o.hardResult
  match filesRes with
  | .error e =>
    { status := "failed", error := some e,
      steps := "starting" :: fileSteps, embedCalls := 0 }
  | .ok files =>
    let afterFiles := if softReindex then ["files_processed"] else []
    let chunked := processChunksForFiles o files
    { status := "completed", error := none,
      steps := "starting" :: fileSteps ++ afterFiles ++
        ["generating_embeddings", "storing_data", "merkle_tree", "notifying", "completed"],
      embedCalls := chunked.2 }

/-! ## Two-pass generation and the query task (`two_pass_generator.py`,
`tasks/query.py`)

`json.loads` is a collaborator; its result is modelled as an
`Except String Json` value over a small JSON syntax, so that
`_parse_file_selection_response`'s handling of a decode error and of
well-formed JSON that is not a list of strings is captured exactly. -/

/-- JSON values as produced by `json.loads`. -/
inductive Json where
  | null
  | bool (b : Bool)
  | num (n : ℚ)
  | str (s : String)
  | arr (items : List Json)
  | obj (fields : List (String × Json))

/-- The `isinstance(files, list) and all(isinstance(f, str) ..)` check:
`some` exactly when the value is a JSON array of strings. -/
def Json.asStringList : Json → Option (List String)
  | .arr items => items.mapM fun j => match j with | .str s => some s | _ => none
  | _ => none

/-- `TwoPassDocumentationGenerator._parse_file_selection_response`: a JSON
decode error is caught and yields `[]`; well-formed JSON that is not a
list of strings also yields `[]`; otherwise the list of paths. -/
def parseFileSelectionResponse (parsed : Except String Json) : List String :=
  match parsed with
  | .error _ => []
  | .ok j =>
    match j.asStringList with
    | some files => files
    | none => []

/-- A retrieved chunk as consumed by Pass 1. -/
structure ChunkHit where
  filePath : String
  similarity : ℚ
  content : String

/-- External collaborators of one two-pass query run. -/
structure QueryOracles where
  embedOk : Bool
  chunks : List ChunkHit
  fulltextChunks : List ChunkHit
  fileContent : String → String
  selectionResponse : Option (Except String Json)
  pass2Ops : String → String → List Operation

/-- `TwoPassDocumentationGenerator.pass_1_file_selection`: embedding
failure, empty retrieval (after the full-text fallback), or a missing
completion response each yield `([], [])`; otherwise the similarity floor
0.05 is applied (kept only if someone survives), per-file summaries with
full content are built in first-occurrence order, the selection response
is parsed, and content is cached for each selected path present among the
summaries. -/
def pass1FileSelection (o : QueryOracles) : List String × List (String × String) :=
  if !o.embedOk then ([], [])
  else
    let rel1 := if o.chunks.isEmpty then o.fulltextChunks else o.chunks
    let rel2 :=
      if rel1.isEmpty then rel1
      else
        let filtered := rel1.filter fun c => decide ((5 : ℚ) / 100 ≤ c.similarity)
        if filtered.isEmpty then rel1 else filtered
    if rel2.isEmpty then ([], [])
    else
      let paths := (rel2.map fun c => c.filePath).dedup
      let summaries := paths.map fun p => (p, o.fileContent p)
      match o.selectionResponse with
      | none => ([], [])
      | some resp =>
        let files := parseFileSelectionResponse resp
        let cached := files.filterMap fun f => (summaries.lookup f).map fun c => (f, c)
        (files, cached)

/-- `TwoPassDocumentationGenerator.pass_2_detailed_editing`: for each
selected file with nonempty cached content, the per-file operations from
the completion model (already parsed; per-file failures are empty lists),
concatenated. -/
def pass2DetailedEditing (o : QueryOracles) (files : List String)
    (cache : List (String × String)) : List Operation :=
  files.flatMap fun f =>
    match cache.lookup f with
    | none => []
    | some content => if content = "" then [] else o.pass2Ops f content

/-- Result dictionary of
`TwoPassDocumentationGenerator.generate_suggestions`. -/
structure GenResult where
  status : String
  error : Option String
  filesToEdit : List String
  operations : List Operation
  suggestionsCreated : Nat
  message : Option String

/-- `TwoPassDocumentationGenerator.generate_suggestions`: no selected
files is a valid completed outcome with zero suggestions and the message
`"No files identified for modification"`; otherwise Pass 2 runs and
`suggestions_created` is the operation count. -/
def generateSuggestions (o : QueryOracles) : GenResult :=
  let p1 := pass1FileSelection o
  if p1.1.isEmpty then
    { status := "completed", error := none, filesToEdit := [], operations := [],
      suggestionsCreated := 0, message := some "No files identified for modification" }
  else
    let ops := pass2DetailedEditing o p1.1 p1.2
    { status := "completed", error := none, filesToEdit := p1.1, operations := ops,
      suggestionsCreated := ops.length, message := none }

/-- Final job state and task result of `_run_query_two_pass`. -/
structure QueryOutcome where
  jobStatus : String
  jobError : Option String
  resultStatus : String
  suggestionsCreated : Nat

/-- `_run_query_two_pass`: a failed generation result raises and lands in
the failed terminal job state with the error attached; a completed result
with zero suggestions completes the job with zero suggestions; otherwise
suggestion records are created (an oracle — `OperationParseError` during
creation degrades to an empty list in the source) and the job completes. -/
def runQueryTwoPass (o : QueryOracles)
    (createSuggestions : List Operation → List Nat) : QueryOutcome :=
  let gen := generateSuggestions o
  if gen.status = "failed" then
    { jobStatus := "failed", jobError := some (gen.error.getD "Two-pass generation failed"),
      resultStatus := "failed", suggestionsCreated := 0 }
  else if gen.suggestionsCreated = 0 then
    { jobStatus := "completed", jobError := none,
      resultStatus := "completed", suggestionsCreated := 0 }
  else
    let suggestions :=
      if gen.operations.isEmpty then [] else createSuggestions gen.operations
    { jobStatus := "completed", jobError := none,
      resultStatus := "completed", suggestionsCreated := suggestions.length }

/-! ## Lemmas and claim theorems: the operation engine (C2, C3, C10) -/

/-! ### Line-structure lemmas -/

lemma splitlinesPy_cr (rest : List Char) (h : ∀ r', rest ≠ '\n' :: r') :
    splitlinesPy ('\r' :: rest) = [] :: splitlinesPy rest := by
  cases rest with
  | nil => rfl
  | cons c r =>
    have hc : c ≠ '\n' := by
      intro hh; exact h r (by rw [hh])
    simp only [splitlinesPy]

lemma splitlinesPy_char (c : Char) (rest : List Char) (h1 : c ≠ '\n') (h2 : c ≠ '\r') :
    splitlinesPy (c :: rest) =
      match splitlinesPy rest with
      | [] => [[c]]
      | l :: ls => (c :: l) :: ls :=
  splitlinesPy.eq_5 c rest (fun h => h1 h) (fun _ hc _ => h2 hc) (fun h => h2 h)

lemma splitlinesPy_eq_nil_iff (s : List Char) : splitlinesPy s = [] ↔ s = [] := by
  constructor
  · intro h
    induction s using splitlinesPy.induct with
    | case1 => rfl
    | case2 rest ih => simp [splitlinesPy] at h
    | case3 rest ih => simp [splitlinesPy] at h
    | case4 rest hne ih => rw [splitlinesPy_cr rest (fun r' hr => hne r' hr)] at h; simp at h
    | case5 c rest hn hcn hr hsp ih =>
      rw [splitlinesPy_char c rest (fun h' => hn h') (fun h' => hr h')] at h
      rw [hsp] at h; simp at h
    | case6 c rest hn hcn hr l ls hsp ih =>
      rw [splitlinesPy_char c rest (fun h' => hn h') (fun h' => hr h')] at h
      rw [hsp] at h; simp at h
  · intro h; subst h; rfl

lemma mem_splitlinesPy_noTerm (s : List Char) :
    ∀ l ∈ splitlinesPy s, '\n' ∉ l ∧ '\r' ∉ l := by
  induction s using splitlinesPy.induct with
  | case1 => intro l hl; simp [splitlinesPy] at hl
  | case2 rest ih =>
    intro l hl
    rw [splitlinesPy.eq_2] at hl
    rcases List.mem_cons.mp hl with rfl | hl
    · simp
    · exact ih l hl
  | case3 rest ih =>
    intro l hl
    rw [splitlinesPy.eq_3] at hl
    rcases List.mem_cons.mp hl with rfl | hl
    · simp
    · exact ih l hl
  | case4 rest hne ih =>
    intro l hl
    rw [splitlinesPy_cr rest (fun r' hr => hne r' hr)] at hl
    rcases List.mem_cons.mp hl with rfl | hl
    · simp
    · exact ih l hl
  | case5 c rest hn hcn hr hsp ih =>
    intro l hl
    rw [splitlinesPy_char c rest (fun h' => hn h') (fun h' => hr h'), hsp] at hl
    rcases List.mem_cons.mp hl with rfl | hl
    · constructor
      · simp only [List.mem_singleton]
        intro h'; exact hn h'.symm
      · simp only [List.mem_singleton]
        intro h'; exact hr h'.symm
    · simp at hl
  | case6 c rest hn hcn hr l0 ls hsp ih =>
    intro l hl
    rw [splitlinesPy_char c rest (fun h' => hn h') (fun h' => hr h'), hsp] at hl
    rcases List.mem_cons.mp hl with rfl | hl
    · have hmem : l0 ∈ splitlinesPy rest := by rw [hsp]; exact List.mem_cons_self _ _
      have := ih l0 hmem
      constructor
      · intro hmem2
        rcases List.mem_cons.mp hmem2 with h' | h'
        · exact hn h'.symm
        · exact this.1 h'
      · intro hmem2
        rcases List.mem_cons.mp hmem2 with h' | h'
        · exact hr h'.symm
        · exact this.2 h'
    · have hmem : l ∈ splitlinesPy rest := by rw [hsp]; exact List.mem_cons_of_mem _ hl
      exact ih l hmem

lemma joinLines_nil : joinLines [] = [] := rfl

lemma joinLines_singleton (l : List Char) : joinLines [l] = l := by
  simp [joinLines, List.intercalate]

lemma joinLines_cons (l : List Char) (ls : List (List Char)) (h : ls ≠ []) :
    joinLines (l :: ls) = l ++ '\n' :: joinLines ls := by
  cases ls with
  | nil => exact absurd rfl h
  | cons l' ls' =>
    simp [joinLines, List.intercalate, List.intersperse]

lemma joinLines_append (A B : List (List Char)) (hA : A ≠ []) (hB : B ≠ []) :
    joinLines (A ++ B) = joinLines A ++ '\n' :: joinLines B := by
  induction A with
  | nil => exact absurd rfl hA
  | cons l ls ih =>
    cases ls with
    | nil =>
      rw [List.singleton_append, joinLines_cons l B hB, joinLines_singleton]
    | cons l' ls' =>
      have hne : (l' :: ls') ++ B ≠ [] := by simp
      rw [List.cons_append, joinLines_cons l _ hne, ih (by simp),
        joinLines_cons l (l' :: ls') (by simp), List.append_assoc, List.cons_append]

lemma countChar_joinLines (lines : List (List Char)) (hne : lines ≠ [])
    (hnoterm : ∀ l ∈ lines, '\n' ∉ l) :
    countChar '\n' (joinLines lines) = lines.length - 1 := by
  induction lines with
  | nil => exact absurd rfl hne
  | cons l ls ih =>
    cases ls with
    | nil =>
      rw [joinLines_singleton]
      simp [countChar, List.count_eq_zero]
      intro h; exact hnoterm l (by simp) h
    | cons l' ls' =>
      rw [joinLines_cons l (l' :: ls') (by simp)]
      have h1 : countChar '\n' l = 0 := by
        simp [countChar, List.count_eq_zero]
        intro h; exact hnoterm l (by simp) h
      have h2 := ih (by simp) (fun x hx => hnoterm x (List.mem_cons_of_mem _ hx))
      simp only [countChar, List.count_append, List.count_cons_self] at *
      simp only [h1, h2]
      simp

lemma countChar_take_le (c : Char) (s : List Char) (k : Nat) :
    countChar c (s.take k) ≤ countChar c s := by
  simpa [countChar] using (List.take_sublist k s).count_le c

lemma joinLines_insertAt_after (lines : List (List Char)) (ins : List Char) (k : Nat)
    (hk1 : 1 ≤ k) (hk2 : k ≤ lines.length) (hlines : lines ≠ []) :
    ∃ pre post, joinLines lines = pre ++ post ∧
      joinLines (pyInsertAt k ins lines) = pre ++ '\n' :: (ins ++ post) := by
  rcases eq_or_lt_of_le hk2 with heq | hlt
  · refine ⟨joinLines lines, [], by simp, ?_⟩
    have hdrop : lines.drop k = [] := by
      rw [List.drop_eq_nil_iff]
      omega
    have htake : lines.take k = lines := by
      apply List.take_of_length_le
      omega
    rw [pyInsertAt, hdrop, htake]
    rw [joinLines_append lines [ins] hlines (by simp), joinLines_singleton]
    simp
  · have htake_ne : lines.take k ≠ [] := by
      have : (lines.take k).length = k := by
        rw [List.length_take]
        omega
      intro h
      rw [h] at this
      simp at this
      omega
    have hdrop_ne : lines.drop k ≠ [] := by
      have : (lines.drop k).length = lines.length - k := List.length_drop _ _
      intro h
      rw [h] at this
      simp at this
      omega
    refine ⟨joinLines (lines.take k), '\n' :: joinLines (lines.drop k), ?_, ?_⟩
    · conv_lhs => rw [← List.take_append_drop k lines]
      rw [joinLines_append _ _ htake_ne hdrop_ne]
    · rw [pyInsertAt, joinLines_append _ _ htake_ne (by simp),
        joinLines_cons ins _ hdrop_ne]

lemma joinLines_insertAt_before (lines : List (List Char)) (ins : List Char) (k : Nat)
    (hk2 : k < lines.length) (hlines : lines ≠ []) :
    ∃ pre post, joinLines lines = pre ++ post ∧
      joinLines (pyInsertAt k ins lines) = pre ++ ins ++ '\n' :: post := by
  rcases Nat.eq_zero_or_pos k with rfl | hk1
  · refine ⟨[], joinLines lines, by simp, ?_⟩
    rw [pyInsertAt]
    simp only [List.take_zero, List.drop_zero, List.nil_append]
    rw [joinLines_cons ins lines hlines]
  · have htake_ne : lines.take k ≠ [] := by
      have : (lines.take k).length = k := by
        rw [List.length_take]
        omega
      intro h
      rw [h] at this
      simp at this
      omega
    have hdrop_ne : lines.drop k ≠ [] := by
      have : (lines.drop k).length = lines.length - k := List.length_drop _ _
      intro h
      rw [h] at this
      simp at this
      omega
    refine ⟨joinLines (lines.take k) ++ ['\n'], joinLines (lines.drop k), ?_, ?_⟩
    · conv_lhs => rw [← List.take_append_drop k lines]
      rw [joinLines_append _ _ htake_ne hdrop_ne]
      simp
    · rw [pyInsertAt, joinLines_append _ _ htake_ne (by simp),
        joinLines_cons ins _ hdrop_ne]
      simp

/-- Claim C2 (amended): on newline-normalised non-empty content containing
the anchor, insertAfter and insertBefore only add the inserted line. -/
theorem insertOps_change_only_inserted_line (content f ins : List Char)
    (hne : content ≠ [])
    (hnorm : content = joinLines (splitlinesPy content))
    (hfind : (pyFind f content).isSome) :
    (∃ pre post, content = pre ++ post ∧
      applyInsertAfterL (splitlinesPy content) f ins = some (pre ++ '\n' :: (ins ++ post))) ∧
    (∃ pre post, content = pre ++ post ∧
      applyInsertBeforeL (splitlinesPy content) f ins = some (pre ++ ins ++ '\n' :: post)) := by
  have hfull : joinLines (splitlinesPy content) = content := hnorm.symm
  have hlines : splitlinesPy content ≠ [] := by
    intro h
    rw [h] at hfull
    exact hne (hfull.symm.trans rfl)
  obtain ⟨idx, hidx⟩ := Option.isSome_iff_exists.mp hfind
  have hcount : countChar '\n' content = (splitlinesPy content).length - 1 := by
    conv_lhs => rw [hnorm]
    exact countChar_joinLines _ hlines (fun l hl => (mem_splitlinesPy_noTerm content l hl).1)
  have hlen1 : 1 ≤ (splitlinesPy content).length := List.length_pos.mpr hlines
  constructor
  · have hk2 : countChar '\n' (content.take (idx + f.length)) + 1 ≤ (splitlinesPy content).length := by
      have := countChar_take_le '\n' content (idx + f.length)
      omega
    obtain ⟨pre, post, h1, h2⟩ :=
      joinLines_insertAt_after (splitlinesPy content) ins
        (countChar '\n' (content.take (idx + f.length)) + 1) (by omega) hk2 hlines
    refine ⟨pre, post, by rw [hnorm, h1], ?_⟩
    simp only [applyInsertAfterL, hfull, hidx]
    rw [h2]
  · have hk2 : countChar '\n' (content.take idx) < (splitlinesPy content).length := by
      have := countChar_take_le '\n' content idx
      omega
    obtain ⟨pre, post, h1, h2⟩ :=
      joinLines_insertAt_before (splitlinesPy content) ins
        (countChar '\n' (content.take idx)) hk2 hlines
    refine ⟨pre, post, by rw [hnorm, h1], ?_⟩
    simp only [applyInsertBeforeL, hfull, hidx]
    rw [h2]

lemma getLast?_cons_of_ne (c : Char) (rest : List Char) (h : rest ≠ []) :
    (c :: rest).getLast? = rest.getLast? := by
  cases rest with
  | nil => exact absurd rfl h
  | cons d r => exact List.getLast?_cons_cons

lemma splitlinesPy_crlfToLf (s : List Char) (h : noLoneCR s = true) :
    splitlinesPy (crlfToLf s) = splitlinesPy s := by
  induction s using noLoneCR.induct with
  | case1 => rfl
  | case2 rest ih =>
    rw [noLoneCR.eq_2] at h
    rw [crlfToLf.eq_2, splitlinesPy.eq_2, splitlinesPy.eq_3, ih h]
  | case3 tail hne =>
    rw [noLoneCR.eq_3 tail (fun r hr => hne r hr)] at h
    exact absurd h (by simp)
  | case4 c rest hcr hc ih =>
    rw [noLoneCR.eq_4 c rest (fun r h1 h2 => hcr r h1 h2) (fun h1 => hc h1)] at h
    rw [crlfToLf.eq_3 c rest (fun r h1 h2 => hcr r h1 h2)]
    by_cases hn : c = '\n'
    · subst hn
      rw [splitlinesPy.eq_2, splitlinesPy.eq_2, ih h]
    · have hcne : c ≠ '\r' := fun h1 => hc h1
      rw [splitlinesPy_char c _ hn hcne, splitlinesPy_char c rest hn hcne, ih h]

lemma splitlinesPy_append_lf (s : List Char) (hne : s ≠ [])
    (hlast : s.getLast? ≠ some '\n' ∧ s.getLast? ≠ some '\r') :
    splitlinesPy (s ++ ['\n']) = splitlinesPy s := by
  induction s using splitlinesPy.induct with
  | case1 => exact absurd rfl hne
  | case2 rest ih =>
    have hrne : rest ≠ [] := by
      intro h
      subst h
      simp at hlast
    have hlast' : rest.getLast? ≠ some '\n' ∧ rest.getLast? ≠ some '\r' := by
      rwa [getLast?_cons_of_ne _ rest hrne] at hlast
    rw [List.cons_append, splitlinesPy.eq_2, splitlinesPy.eq_2, ih hrne hlast']
  | case3 rest ih =>
    have hrne : rest ≠ [] := by
      intro h
      subst h
      simp at hlast
    have hlast' : rest.getLast? ≠ some '\n' ∧ rest.getLast? ≠ some '\r' := by
      have h1 : ('\r' :: '\n' :: rest).getLast? = ('\n' :: rest).getLast? :=
        getLast?_cons_of_ne _ _ (by simp)
      have h2 : ('\n' :: rest).getLast? = rest.getLast? :=
        getLast?_cons_of_ne _ rest hrne
      rw [h1, h2] at hlast
      exact hlast
    rw [List.cons_append, List.cons_append, splitlinesPy.eq_3, splitlinesPy.eq_3,
      ih hrne hlast']
  | case4 rest hr ih =>
    have hrne : rest ≠ [] := by
      intro h
      subst h
      simp at hlast
    have hlast' : rest.getLast? ≠ some '\n' ∧ rest.getLast? ≠ some '\r' := by
      rwa [getLast?_cons_of_ne _ rest hrne] at hlast
    have hhead : ∀ r', rest ++ ['\n'] ≠ '\n' :: r' := by
      intro r' hcontra
      cases rest with
      | nil => exact hrne rfl
      | cons d r2 =>
        have : d = '\n' := by
          have := congrArg (fun l => l.head?) hcontra
          simpa using this
        exact hr r2 (by rw [this])
    rw [List.cons_append, splitlinesPy_cr _ hhead,
      splitlinesPy_cr rest (fun r' h' => hr r' h'), ih hrne hlast']
  | case5 c rest hn hcr hc hsp ih =>
    have hrnil : rest = [] := (splitlinesPy_eq_nil_iff rest).mp hsp
    subst hrnil
    have hcn : c ≠ '\n' := fun h' => hn h'
    have hcc : c ≠ '\r' := fun h' => hc h'
    rw [List.cons_append, List.nil_append, splitlinesPy_char c ['\n'] hcn hcc,
      splitlinesPy_char c [] hcn hcc]
    rfl
  | case6 c rest hn hcr hc l ls hsp ih =>
    have hcn : c ≠ '\n' := fun h' => hn h'
    have hcc : c ≠ '\r' := fun h' => hc h'
    have hrne : rest ≠ [] := by
      intro h
      subst h
      simp [splitlinesPy] at hsp
    have hlast' : rest.getLast? ≠ some '\n' ∧ rest.getLast? ≠ some '\r' := by
      rwa [getLast?_cons_of_ne _ rest hrne] at hlast
    rw [List.cons_append, splitlinesPy_char c _ hcn hcc,
      splitlinesPy_char c rest hcn hcc, ih hrne hlast']

lemma replaceScan_cons_pos (f r : List Char) (c : Char) (rest : List Char)
    (hf : f ≠ []) (hp : f.isPrefixOf (c :: rest)) :
    replaceScan f r (c :: rest) = r ++ replaceScan f r ((c :: rest).drop f.length) := by
  rw [replaceScan]
  rw [dif_pos ⟨hf, hp⟩]

lemma replaceScan_cons_neg (f r : List Char) (c : Char) (rest : List Char)
    (hp : ¬(f ≠ [] ∧ f.isPrefixOf (c :: rest))) :
    replaceScan f r (c :: rest) = c :: replaceScan f r rest := by
  rw [replaceScan]
  rw [dif_neg hp]

lemma pyFind_cons (needle : List Char) (c : Char) (rest : List Char) :
    pyFind needle (c :: rest) =
      if needle.isPrefixOf (c :: rest) then some 0
      else (pyFind needle rest).map (· + 1) := rfl

/-- Claim C3 helper: the scanner continues replacing after the first
occurrence of the pattern. -/
lemma pyReplace_all (f r a b : List Char) (hf : f ≠ [])
    (hfind : pyFind f (a ++ f ++ b) = some a.length) :
    pyReplace f r (a ++ f ++ b) = a ++ r ++ pyReplace f r b := by
  rw [pyReplace, pyReplace, if_neg hf, if_neg hf]
  induction a with
  | nil =>
    simp only [List.nil_append]
    obtain ⟨c, f', rfl⟩ := List.exists_cons_of_ne_nil hf
    rw [List.cons_append, replaceScan_cons_pos _ r c (f' ++ b) hf
      (by rw [List.isPrefixOf_iff_prefix]
          exact ⟨b, by simp⟩)]
    rw [← List.cons_append, List.drop_left]
  | cons c a' ih =>
    have hsplit : (c :: a') ++ f ++ b = c :: (a' ++ f ++ b) := by simp
    rw [hsplit] at hfind ⊢
    by_cases hpre : f.isPrefixOf (c :: (a' ++ f ++ b))
    · rw [pyFind_cons, if_pos hpre] at hfind
      simp at hfind
    · rw [pyFind_cons, if_neg hpre] at hfind
      obtain ⟨n, hn, hn1⟩ := Option.map_eq_some'.mp hfind
      have hn2 : n = a'.length := by
        simp only [List.length_cons] at hn1
        omega
      subst hn2
      rw [replaceScan_cons_neg _ _ _ _ (by
        intro hcontra
        exact hpre hcontra.2)]
      rw [ih hn]
      simp

/-- When the pattern does not occur, scanning replacement is the
identity. -/
lemma pyReplace_not_found (f r s : List Char) (hf : f ≠ [])
    (hfind : pyFind f s = none) : pyReplace f r s = s := by
  rw [pyReplace, if_neg hf]
  induction s with
  | nil => simp [replaceScan]
  | cons c rest ih =>
    rw [pyFind_cons] at hfind
    by_cases hpre : f.isPrefixOf (c :: rest)
    · rw [if_pos hpre] at hfind
      exact absurd hfind (by simp)
    · rw [if_neg hpre] at hfind
      have hrest : pyFind f rest = none := by
        cases hr : pyFind f rest with
        | none => rfl
        | some n => rw [hr] at hfind; simp at hfind
      rw [replaceScan_cons_neg _ _ _ _ (fun hc => hpre hc.2), ih hrest]

/-- Claim C2 (counterexample): insertAfter does mutate characters outside
the inserted line when the content uses `"\r\n"` separators — the carriage
return of the original content is gone from the output even though it is
not part of the inserted line. -/
theorem claim2_counterexample :
    applyOperationToContent "a\r\nb" ⟨"doc.md", .insertAfter, "a", "X", "", ""⟩ =
      some "a\nX\nb" ∧
    '\r' ∈ "a\r\nb".data ∧ '\r' ∉ "a\nX\nb".data ∧ '\r' ∉ "X".data := by
  refine ⟨by decide, by decide, by decide, by decide⟩

/-- Claim C2 (amended, witness): the frame theorem applied to the
normalised content `"a\nb"` with anchor `"a"` and inserted line `"X"`. -/
theorem claim2_witness :
    "a\nb".data ≠ [] ∧
    "a\nb".data = joinLines (splitlinesPy "a\nb".data) ∧
    (pyFind "a".data "a\nb".data).isSome ∧
    ((∃ pre post, "a\nb".data = pre ++ post ∧
        applyInsertAfterL (splitlinesPy "a\nb".data) "a".data "X".data =
          some (pre ++ '\n' :: ("X".data ++ post))) ∧
      (∃ pre post, "a\nb".data = pre ++ post ∧
        applyInsertBeforeL (splitlinesPy "a\nb".data) "a".data "X".data =
          some (pre ++ "X".data ++ '\n' :: post))) :=
  ⟨by decide, by decide, by decide,
    insertOps_change_only_inserted_line "a\nb".data "a".data "X".data
      (by decide) (by decide) (by decide)⟩

/-- Claim C3: the replace operation replaces every occurrence of `find`
(the scanner keeps replacing after the first occurrence), and on
`"Version v1.0 released, see v1.0 docs"` the operation
`{op: replace, find: "v1.0", replace: "v2.0"}` yields
`"Version v2.0 released, see v2.0 docs"`. -/
theorem claim3_replace_all :
    applyOperationToContent "Version v1.0 released, see v1.0 docs"
        ⟨"doc.md", .replace, "v1.0", "", "v2.0", ""⟩ =
      some "Version v2.0 released, see v2.0 docs" ∧
    (∀ f r a b : List Char, f ≠ [] → pyFind f (a ++ f ++ b) = some a.length →
      pyReplace f r (a ++ f ++ b) = a ++ r ++ pyReplace f r b) := by
  constructor
  · have hcore : pyReplace "v1.0".data "v2.0".data
        "Version v1.0 released, see v1.0 docs".data =
        "Version v2.0 released, see v2.0 docs".data := by
      have h4 : "Version v1.0 released, see v1.0 docs".data =
          "Version ".data ++ "v1.0".data ++
            (" released, see ".data ++ "v1.0".data ++ " docs".data) := by decide
      rw [h4, pyReplace_all _ _ _ _ (by decide) (by decide),
        pyReplace_all _ _ _ _ (by decide) (by decide),
        pyReplace_not_found _ "v2.0".data _ (by decide) (by decide)]
      decide
    have step : applyOperationToContent "Version v1.0 released, see v1.0 docs"
        ⟨"doc.md", .replace, "v1.0", "", "v2.0", ""⟩ =
        some (String.mk (pyReplace "v1.0".data "v2.0".data
          "Version v1.0 released, see v1.0 docs".data)) := by rfl
    rw [step, hcore]
  · exact fun f r a b hf hfind => pyReplace_all f r a b hf hfind

/-- Claim C3 (witness): the replace-all lemma applied past a first
occurrence at index 2 of `"xxabyab"`. -/
theorem claim3_witness :
    ("ab".data : List Char) ≠ [] ∧
    pyFind "ab".data ("xx".data ++ "ab".data ++ "yab".data) = some "xx".data.length ∧
    pyReplace "ab".data "Z".data ("xx".data ++ "ab".data ++ "yab".data) =
      "xx".data ++ "Z".data ++ pyReplace "ab".data "Z".data "yab".data :=
  ⟨by decide, by decide,
    claim3_replace_all.2 "ab".data "Z".data "xx".data "yab".data (by decide) (by decide)⟩

/-- Claim C10: applying any of the four operation kinds to content is
invariant under the newline normalisation the applier performs internally:
converting `"\r\n"` separators to `"\n"` does not change the result (for
content whose carriage returns all belong to `"\r\n"` pairs), and neither
does dropping a trailing `"\n"` terminator (for non-empty content not
already ending in a terminator).  Characters re-introduced by the
operation's own insert/replace text are unaffected, since the equations
hold for every operation. -/
theorem claim10_newline_normalization :
    (∀ (op : Operation) (content : String), noLoneCR content.data = true →
      applyOperationToContent (String.mk (crlfToLf content.data)) op =
        applyOperationToContent content op) ∧
    (∀ (op : Operation) (content : String), content.data ≠ [] →
      content.data.getLast? ≠ some '\n' → content.data.getLast? ≠ some '\r' →
      applyOperationToContent (String.mk (content.data ++ ['\n'])) op =
        applyOperationToContent content op) := by
  constructor
  · intro op content h
    unfold applyOperationToContent
    rw [show (String.mk (crlfToLf content.data)).data = crlfToLf content.data from rfl,
      splitlinesPy_crlfToLf _ h]
  · intro op content h1 h2 h3
    unfold applyOperationToContent
    rw [show (String.mk (content.data ++ ['\n'])).data = content.data ++ ['\n'] from rfl,
      splitlinesPy_append_lf _ h1 ⟨h2, h3⟩]

/-- Claim C10 (witness): the two normalisation equations at the content
`"a\r\nb"` (respectively `"a\nb"` plus a trailing newline) for a concrete
insertAfter operation. -/
theorem claim10_witness :
    noLoneCR "a\r\nb".data = true ∧
    applyOperationToContent (String.mk (crlfToLf "a\r\nb".data))
        ⟨"doc.md", .insertAfter, "a", "X", "", ""⟩ =
      applyOperationToContent "a\r\nb" ⟨"doc.md", .insertAfter, "a", "X", "", ""⟩ ∧
    ("a\nb".data ≠ [] ∧ "a\nb".data.getLast? ≠ some '\n' ∧
      "a\nb".data.getLast? ≠ some '\r') ∧
    applyOperationToContent (String.mk ("a\nb".data ++ ['\n']))
        ⟨"doc.md", .insertAfter, "a", "X", "", ""⟩ =
      applyOperationToContent "a\nb" ⟨"doc.md", .insertAfter, "a", "X", "", ""⟩ :=
  ⟨by decide,
    claim10_newline_normalization.1 ⟨"doc.md", .insertAfter, "a", "X", "", ""⟩ "a\r\nb" (by decide),
    ⟨by decide, by decide, by decide⟩,
    claim10_newline_normalization.2 ⟨"doc.md", .insertAfter, "a", "X", "", ""⟩ "a\nb"
      (by decide) (by decide) (by decide)⟩

/-! ## Claim theorems: Merkle root, chunk store, indexing (C5, C6, C7) -/

/-- Claim C5: the Merkle root hash is invariant under permutation of the
`(path, content_hash)` list, and it is the hash of the sorted
`"path:hash"` concatenation with no separator between pairs. -/
theorem claim5_merkle_root_deterministic (sha : String → String)
    (l1 l2 : List (String × String)) (hperm : l1.Perm l2) :
    calculateRootHash sha l1 = calculateRootHash sha l2 ∧
    calculateRootHash sha l1 =
      sha (String.join ((sortedPairs l1).map fun ph => ph.1 ++ ":" ++ ph.2)) := by
  constructor
  · have hp : (l1.insertionSort pairLe).Perm (l2.insertionSort pairLe) :=
      ((l1.perm_insertionSort pairLe).trans hperm).trans
        (l2.perm_insertionSort pairLe).symm
    have heq : l1.insertionSort pairLe = l2.insertionSort pairLe :=
      List.eq_of_perm_of_sorted hp (l1.sorted_insertionSort pairLe)
        (l2.sorted_insertionSort pairLe)
    unfold calculateRootHash rootHashInput sortedPairs
    rw [heq]
  · rfl

/-- Claim C5 (witness): order invariance at a concrete two-file list. -/
theorem claim5_witness :
    ([("docs/b.md", "h1"), ("docs/a.md", "h2")] : List (String × String)).Perm
      [("docs/a.md", "h2"), ("docs/b.md", "h1")] ∧
    calculateRootHash (fun s => s) [("docs/b.md", "h1"), ("docs/a.md", "h2")] =
      calculateRootHash (fun s => s) [("docs/a.md", "h2"), ("docs/b.md", "h1")] :=
  ⟨by decide,
    (claim5_merkle_root_deterministic (fun s => s)
      [("docs/b.md", "h1"), ("docs/a.md", "h2")]
      [("docs/a.md", "h2"), ("docs/b.md", "h1")] (by decide)).1⟩

lemma countP_eq_zero_of_find_none (db : List ChunkRow) (h : String)
    (hfind : findChunkByHash db h = none) :
    db.countP (fun r => r.hash == h) = 0 := by
  rw [List.countP_eq_zero]
  intro r hr
  have := List.find?_eq_none.mp hfind r hr
  simpa using this

lemma countP_pos_of_find_some (db : List ChunkRow) (h : String) (r : ChunkRow)
    (hfind : findChunkByHash db h = some r) :
    1 ≤ db.countP (fun r => r.hash == h) := by
  have hmem := List.mem_of_find?_eq_some hfind
  have hpred := List.find?_some hfind
  exact List.countP_pos_iff.mpr ⟨r, hmem, hpred⟩

/-- Claim C6: processing the same chunk content twice against the chunk
store is idempotent — when the embedding provider succeeds on that
content and the store satisfies its primary-key invariant, the two calls
together make at most one embedding call, the second call leaves the
store untouched, and exactly one row keyed by `sha256(content)` exists
afterwards. -/
theorem claim6_chunk_processing_idempotent
    (sha : String → String) (embed : String → Option (List ℚ))
    (countTok : String → Nat) (db : List ChunkRow) (content : String)
    (hwf : ∀ k, db.countP (fun r => r.hash == k) ≤ 1)
    (hemb : (embed content).isSome) :
    (processSingleChunk sha embed countTok db content).2.1 +
      (processSingleChunk sha embed countTok
        (processSingleChunk sha embed countTok db content).1 content).2.1 ≤ 1 ∧
    (processSingleChunk sha embed countTok
        (processSingleChunk sha embed countTok db content).1 content).1 =
      (processSingleChunk sha embed countTok db content).1 ∧
    ((processSingleChunk sha embed countTok db content).1.countP
        (fun r => r.hash == sha content)) = 1 := by
  obtain ⟨emb, hembEq⟩ := Option.isSome_iff_exists.mp hemb
  cases hfind : findChunkByHash db (sha content) with
  | some r =>
    have hp1 : processSingleChunk sha embed countTok db content = (db, 0, true) := by
      rw [processSingleChunk, hfind]
    rw [hp1]
    simp only
    rw [processSingleChunk, hfind]
    refine ⟨by simp, rfl, ?_⟩
    exact le_antisymm (hwf (sha content)) (countP_pos_of_find_some db (sha content) r hfind)
  | none =>
    have hzero : db.countP (fun r => r.hash == sha content) = 0 :=
      countP_eq_zero_of_find_none db (sha content) hfind
    have hany : db.any (fun r => r.hash == sha content) = false := by
      rw [List.any_eq_false]
      intro r hr
      have := List.find?_eq_none.mp hfind r hr
      simpa using this
    have hstore : storeNewChunk db (sha content) content emb (countTok content) =
        db ++ [⟨sha content, content, emb, countTok content⟩] := by
      rw [storeNewChunk, hany]
      simp
    have hp1 : processSingleChunk sha embed countTok db content =
        (db ++ [⟨sha content, content, emb, countTok content⟩], 1, true) := by
      rw [processSingleChunk, hfind, hembEq]
      simp only [hstore]
    rw [hp1]
    simp only
    have hfind2 : findChunkByHash
        (db ++ [⟨sha content, content, emb, countTok content⟩]) (sha content) =
        some ⟨sha content, content, emb, countTok content⟩ := by
      rw [findChunkByHash, List.find?_append]
      rw [findChunkByHash] at hfind
      rw [hfind]
      simp
    rw [processSingleChunk, hfind2]
    refine ⟨by simp, rfl, ?_⟩
    rw [List.countP_append, hzero]
    simp

/-- Claim C6 (witness): two runs over an empty store with a succeeding
embedding oracle leave exactly one row for the content hash. -/
theorem claim6_witness :
    (∀ k : String, ([] : List ChunkRow).countP (fun r => r.hash == k) ≤ 1) ∧
    ((fun _ : String => some ([1] : List ℚ)) "hello").isSome ∧
    (processSingleChunk (fun s => s) (fun _ => some [1]) (fun _ => 5) [] "hello").1.countP
      (fun r => r.hash == (fun s : String => s) "hello") = 1 :=
  ⟨fun k => by simp, by simp,
    (claim6_chunk_processing_idempotent (fun s => s) (fun _ => some [1]) (fun _ => 5)
      [] "hello" (fun k => by simp) (by simp)).2.2⟩

lemma pyFind_isSome_append (f : List Char) :
    ∀ (a b : List Char), (pyFind f (a ++ f ++ b)).isSome := by
  intro a
  induction a with
  | nil =>
    intro b
    cases hfb : f ++ b with
    | nil =>
      have hf : f = [] := by
        cases f with
        | nil => rfl
        | cons c r => simp at hfb
      subst hf
      cases b <;> simp [pyFind, List.isPrefixOf]
    | cons c rest =>
      simp only [List.nil_append, hfb, pyFind]
      have : f.isPrefixOf (c :: rest) := by
        rw [List.isPrefixOf_iff_prefix, ← hfb]
        exact ⟨b, rfl⟩
      rw [if_pos this]
      rfl
  | cons c a' ih =>
    intro b
    rw [List.cons_append, List.cons_append, pyFind_cons]
    by_cases hpre : f.isPrefixOf (c :: (a' ++ f ++ b))
    · rw [if_pos hpre]; rfl
    · rw [if_neg hpre]
      simpa using ih b

/-- Claim C7: a soft re-index of a repository with no stored files fails
fast — the job ends failed carrying the "Cannot perform soft re-index"
error, no embedding call is made, and the embedding stage is never
reached. -/
theorem claim7_soft_reindex_empty_fails_fast (o : IndexOracles) (repoId : String)
    (hempty : o.storedFiles = []) :
    (runIndexing o repoId true).status = "failed" ∧
    (runIndexing o repoId true).error =
      some ("No files found for repository " ++ repoId ++ ". Cannot perform soft re-index.") ∧
    (runIndexing o repoId true).embedCalls = 0 ∧
    "generating_embeddings" ∉ (runIndexing o repoId true).steps ∧
    ∃ idx, pyFind "Cannot perform soft re-index".data
      ("No files found for repository " ++ repoId ++ ". Cannot perform soft re-index.").data
        = some idx := by
  have herr : processFilesFromStorage o repoId =
      .error ("No files found for repository " ++ repoId ++ ". Cannot perform soft re-index.") := by
    rw [processFilesFromStorage, hempty]
    rfl
  have hrun : runIndexing o repoId true =
      { status := "failed",
        error := some ("No files found for repository " ++ repoId ++ ". Cannot perform soft re-index."),
        steps := ["starting", "fetching_existing_files"], embedCalls := 0 } := by
    rw [runIndexing]
    simp [herr]
  refine ⟨by rw [hrun], by rw [hrun], by rw [hrun], by simp [hrun], ?_⟩
  have hsplit : ("No files found for repository " ++ repoId ++ ". Cannot perform soft re-index.").data =
      ("No files found for repository " ++ repoId ++ ". ").data ++
        "Cannot perform soft re-index".data ++ ".".data := by
    simp [String.data_append]
  rw [hsplit]
  exact Option.isSome_iff_exists.mp (pyFind_isSome_append _ _ _)

/-- Claim C7 (witness): the fail-fast at a concrete repository id with an
empty stored-file table. -/
theorem claim7_witness :
    ({ storedFiles := [], storageGet := fun _ => none, hardResult := .ok [],
       sha := fun s => s, embed := fun _ => none, countTok := fun _ => 0,
       tok := ⟨fun _ => [], fun _ => ""⟩, chunkDb := [] } : IndexOracles).storedFiles = [] ∧
    (runIndexing
      { storedFiles := [], storageGet := fun _ => none, hardResult := .ok [],
        sha := fun s => s, embed := fun _ => none, countTok := fun _ => 0,
        tok := ⟨fun _ => [], fun _ => ""⟩, chunkDb := [] } "repo-1" true).status = "failed" :=
  ⟨rfl,
    (claim7_soft_reindex_empty_fails_fast
      { storedFiles := [], storageGet := fun _ => none, hardResult := .ok [],
        sha := fun s => s, embed := fun _ => none, countTok := fun _ => 0,
        tok := ⟨fun _ => [], fun _ => ""⟩, chunkDb := [] } "repo-1" rfl).1⟩

/-! ## Claim theorems: the chunker loop (C8, C9) -/

lemma splitLoop_isSome (tok : Tokenizer) (tokens : List Nat) (maxTokens overlapTokens : Nat)
    (hlt : overlapTokens < maxTokens) :
    ∀ (fuel start : Nat), tokens.length - start < fuel →
      (splitLoop tok tokens maxTokens overlapTokens fuel start).isSome := by
  intro fuel
  induction fuel with
  | zero => intro start h; omega
  | succ n ih =>
    intro start h
    rw [splitLoop]
    by_cases hs : start < tokens.length
    · rw [if_pos hs]
      have hstep : start + 1 ≤ (start + maxTokens) - overlapTokens := by omega
      have hge : start + 1 ≤ max ((start + maxTokens) - overlapTokens)
          (windowEnd tok tokens start maxTokens) :=
        le_trans hstep (le_max_left _ _)
      simpa using ih _ (by omega)
    · rw [if_neg hs]
      rfl

/-- Claim C8: with `max_tokens > overlap_tokens` (as with the defaults
1000 and 100), the chunking loop terminates on every input: on each
iteration the window start advances to
`max(start + max_tokens - overlap_tokens, end)`, which is at least
`start + 1`, so fuel `len(tokens) + 1` always suffices and a finite chunk
list is produced. -/
theorem claim8_split_text_terminates (tok : Tokenizer) (text : String)
    (maxTokens overlapTokens : Nat) (hlt : overlapTokens < maxTokens) :
    ∃ chunks, splitTextByTokens tok text maxTokens overlapTokens = some chunks := by
  rw [splitTextByTokens]
  apply Option.isSome_iff_exists.mp
  exact splitLoop_isSome tok (tok.encode text) maxTokens overlapTokens hlt _ 0 (by omega)

/-- Claim C8 (witness): termination at the default budgets on a concrete
character-level tokenizer. -/
theorem claim8_witness :
    100 < 1000 ∧
    ∃ chunks, splitTextByTokens charTokenizer "hello world" 1000 100 = some chunks :=
  ⟨by omega, claim8_split_text_terminates charTokenizer "hello world" 1000 100 (by omega)⟩

/-- Claim C9: an empty token stream (empty text under any tokenizer that
encodes the empty string to no tokens) yields zero chunks, and a non-empty
text whose token count is below `max_tokens` yields exactly one chunk. -/
theorem claim9_split_text_chunk_counts (tok : Tokenizer) (maxTokens overlapTokens : Nat) :
    (tok.encode "" = [] → splitTextByTokens tok "" maxTokens overlapTokens = some []) ∧
    (∀ text : String, 0 < (tok.encode text).length →
      (tok.encode text).length < maxTokens →
      splitTextByTokens tok text maxTokens overlapTokens =
        some [pyStrip (tok.decode (tok.encode text))]) := by
  constructor
  · intro henc
    rw [splitTextByTokens, henc]
    rfl
  · intro text hpos hlen
    obtain ⟨m, hm⟩ : ∃ m, (tok.encode text).length = m + 1 :=
      ⟨(tok.encode text).length - 1, by omega⟩
    have hwe : windowEnd tok (tok.encode text) 0 maxTokens = (tok.encode text).length := by
      rw [windowEnd, min_eq_right (by omega)]
      rw [if_neg (lt_irrefl _)]
    have hslice : pySlice (tok.encode text) 0 (tok.encode text).length = tok.encode text := by
      rw [pySlice, List.drop_zero, Nat.sub_zero, List.take_of_length_le (le_refl _)]
    rw [splitTextByTokens, hm, splitLoop, if_pos (by omega), hwe, hslice]
    rw [splitLoop, if_neg (by
      have : (tok.encode text).length ≤ max ((0 + maxTokens) - overlapTokens)
          (windowEnd tok (tok.encode text) 0 maxTokens) := le_trans (le_of_eq hwe.symm) (le_max_right _ _)
      omega)]
    rfl

/-- Claim C9 (witness): both chunk-count cases at the character-level
tokenizer. -/
theorem claim9_witness :
    (charTokenizer.encode "" = [] ∧
      splitTextByTokens charTokenizer "" 1000 100 = some []) ∧
    (0 < (charTokenizer.encode "hi").length ∧
      (charTokenizer.encode "hi").length < 1000 ∧
      splitTextByTokens charTokenizer "hi" 1000 100 =
        some [pyStrip (charTokenizer.decode (charTokenizer.encode "hi"))]) :=
  ⟨⟨rfl, (claim9_split_text_chunk_counts charTokenizer 1000 100).1 rfl⟩,
    ⟨by decide, by decide,
      (claim9_split_text_chunk_counts charTokenizer 1000 100).2 "hi"
        (by decide) (by decide)⟩⟩

/-! ## Claim theorems: two-pass query task (C4) -/

/-- Shared helper: a Pass-1 selection response that fails to parse (or is
not a JSON list of strings) drives the whole two-pass task to the
completed outcome with zero suggestions. -/
lemma runQueryTwoPass_parse_failure (o : QueryOracles)
    (cs : List Operation → List Nat) (resp : Except String Json)
    (hresp : o.selectionResponse = some resp)
    (hbad : (∃ msg, resp = Except.error msg) ∨
      (∃ j, resp = Except.ok j ∧ j.asStringList = none)) :
    runQueryTwoPass o cs =
      { jobStatus := "completed", jobError := none,
        resultStatus := "completed", suggestionsCreated := 0 } := by
  have hparse : parseFileSelectionResponse resp = [] := by
    rcases hbad with ⟨msg, rfl⟩ | ⟨j, rfl, hj⟩
    · rfl
    · rw [parseFileSelectionResponse, hj]
  have hp1 : (pass1FileSelection o).1 = [] := by
    simp only [pass1FileSelection, hresp, hparse]
    repeat' split
    all_goals rfl
  have hgen : generateSuggestions o =
      { status := "completed", error := none, filesToEdit := [], operations := [],
        suggestionsCreated := 0,
        message := some "No files identified for modification" } := by
    simp only [generateSuggestions, hp1]
    rfl
  rw [runQueryTwoPass, hgen]
  simp

/-- Oracle assignment exhibiting the Pass-1 parse-failure behaviour: the
retrieval succeeds, but the completion model's file-selection response is
not valid JSON (`json.loads` raises). -/
def parseFailureOracles : QueryOracles :=
  { embedOk := true,
    chunks := [⟨"docs/a.md", 1/2, "chunk text"⟩],
    fulltextChunks := [],
    fileContent := fun _ => "file content",
    selectionResponse := some (.error "Expecting value: line 1 column 1 (char 0)"),
    pass2Ops := fun _ _ => [] }

/-- Claim C4 (counterexample): when the Pass-1 file-selection response
cannot be parsed, the job is NOT set to a failed terminal state — the
parser swallows the error into an empty file list and the job completes
normally with zero suggestions. -/
theorem claim4_counterexample :
    (runQueryTwoPass parseFailureOracles (fun _ => [])).jobStatus = "completed" ∧
    (runQueryTwoPass parseFailureOracles (fun _ => [])).jobStatus ≠ "failed" ∧
    (runQueryTwoPass parseFailureOracles (fun _ => [])).suggestionsCreated = 0 := by
  have h := runQueryTwoPass_parse_failure parseFailureOracles (fun _ => [])
    (Except.error "Expecting value: line 1 column 1 (char 0)") rfl (Or.inl ⟨_, rfl⟩)
  rw [h]
  refine ⟨rfl, by simp, rfl⟩

/-- Claim C4 (amended): if the Pass-1 file-selection response is invalid
JSON or is JSON that is not a list of strings, the parser returns an empty
file list and the query job completes normally with zero suggestions and
no error — it is not set to a failed state. -/
theorem claim4_parse_failure_completes (o : QueryOracles)
    (cs : List Operation → List Nat) (resp : Except String Json)
    (hresp : o.selectionResponse = some resp)
    (hbad : (∃ msg, resp = Except.error msg) ∨
      (∃ j, resp = Except.ok j ∧ j.asStringList = none)) :
    (runQueryTwoPass o cs).jobStatus = "completed" ∧
    (runQueryTwoPass o cs).jobError = none ∧
    (runQueryTwoPass o cs).suggestionsCreated = 0 := by
  rw [runQueryTwoPass_parse_failure o cs resp hresp hbad]
  exact ⟨rfl, rfl, rfl⟩

/-- Claim C4 (amended, witness): the completed-with-zero-suggestions
outcome at the concrete unparsable response. -/
theorem claim4_witness :
    parseFailureOracles.selectionResponse =
      some (Except.error "Expecting value: line 1 column 1 (char 0)") ∧
    (∃ msg, (Except.error "Expecting value: line 1 column 1 (char 0)" :
      Except String Json) = Except.error msg) ∧
    (runQueryTwoPass parseFailureOracles (fun _ => [])).jobStatus = "completed" :=
  ⟨rfl, ⟨_, rfl⟩,
    (claim4_parse_failure_completes parseFailureOracles (fun _ => [])
      (Except.error "Expecting value: line 1 column 1 (char 0)") rfl
      (Or.inl ⟨_, rfl⟩)).1⟩

/-! ## Claim theorems: elbow analyzer (C1) -/

lemma relevantScores_length_le (minDocs maxDocs : Nat) (sig : ℚ) (s : List ℚ) :
    (relevantScores minDocs maxDocs sig s).length ≤ s.length := by
  have htr : (truncatedScores maxDocs s).length ≤ s.length := by
    rw [truncatedScores, List.length_take]
    omega
  have hfl : (filteredScores sig (truncatedScores maxDocs s)).length ≤
      (truncatedScores maxDocs s).length := List.length_filter_le _ _
  rw [relevantScores]
  split
  · split
    · rename_i hmin
      rw [List.length_take]
      omega
    · exact htr
  · omega

lemma relevantScores_length_ge (maxDocs : Nat) (sig : ℚ) (s : List ℚ)
    (hmaxpos : 3 ≤ maxDocs) (hlen : 3 ≤ s.length) :
    3 ≤ (relevantScores 3 maxDocs sig s).length := by
  have htr : 3 ≤ (truncatedScores maxDocs s).length := by
    rw [truncatedScores, List.length_take]
    omega
  rw [relevantScores]
  repeat' split
  all_goals try simp only [List.length_take]
  all_goals omega

lemma adaptiveFallback_bounds (s : List ℚ) (h : 3 < s.length) :
    3 ≤ adaptiveFallback 3 50 s ∧ adaptiveFallback 3 50 s ≤ s.length := by
  rw [adaptiveFallback]
  have hne : ¬s.isEmpty := by
    rw [List.isEmpty_iff]
    intro heq
    rw [heq] at h
    simp at h
  rw [if_neg (by simpa using hne)]
  split
  · rename_i hcond
    constructor
    · have := hcond.1
      omega
    · exact min_le_left _ _
  · constructor
    · have h1 : 3 ≤ max 3 (s.length / 3) := le_max_left _ _
      omega
    · exact min_le_left _ _

/-- Claim C1: for every descending similarity-score list,
`find_elbow_point` with the default configuration (`min_docs = 3`,
`max_docs = 50`, `significance_threshold = 0.15`) returns exactly
`min_docs` when fewer than `min_docs` scores exist, and otherwise a count
within `[min_docs, len(scores)]` no matter which internal branch
(threshold filter, detector ensemble, or adaptive fallback) produces
it. -/
theorem claim1_elbow_point_bounds (scores : List ℚ)
    (hdesc : scores.Sorted (· ≥ ·)) :
    (scores.length < 3 → (findElbowPoint 3 50 ((3 : ℚ) / 20) scores).1 = 3) ∧
    (3 ≤ scores.length →
      3 ≤ (findElbowPoint 3 50 ((3 : ℚ) / 20) scores).1 ∧
      (findElbowPoint 3 50 ((3 : ℚ) / 20) scores).1 ≤ scores.length) := by
  constructor
  · intro hlen
    rw [findElbowPoint, if_pos (Or.inr hlen)]
  · intro hlen
    have hcond : ¬(scores.isEmpty ∨ scores.length < 3) := by
      intro hor
      rcases hor with h | h
      · rw [List.isEmpty_iff] at h
        rw [h] at hlen
        simp at hlen
      · omega
    have hge := relevantScores_length_ge 50 ((3 : ℚ) / 20) scores (by omega) hlen
    have hle := relevantScores_length_le 3 50 ((3 : ℚ) / 20) scores
    rw [findElbowPoint, if_neg hcond]
    split
    · rename_i hthresh
      constructor
      · exact hge
      · exact hle
    · rename_i hthresh
      have hgt : 3 < (relevantScores 3 50 ((3 : ℚ) / 20) scores).length := by omega
      split
      · have := adaptiveFallback_bounds (relevantScores 3 50 ((3 : ℚ) / 20) scores) hgt
        exact ⟨this.1, le_trans this.2 hle⟩
      · constructor
        · exact le_max_left _ _
        · apply le_trans _ hle
          apply max_le (by omega)
          exact min_le_right _ _

/-- Claim C1 (witness): the bounds at the concrete descending list
`[1, 9/10, 4/5, 7/10]`. -/
theorem claim1_witness :
    ([(1 : ℚ), 9/10, 4/5, 7/10].Sorted (· ≥ ·)) ∧
    3 ≤ ([(1 : ℚ), 9/10, 4/5, 7/10] : List ℚ).length ∧
    3 ≤ (findElbowPoint 3 50 ((3 : ℚ) / 20) [(1 : ℚ), 9/10, 4/5, 7/10]).1 ∧
    (findElbowPoint 3 50 ((3 : ℚ) / 20) [(1 : ℚ), 9/10, 4/5, 7/10]).1 ≤ 4 :=
  ⟨by norm_num [List.Sorted], by norm_num,
    ((claim1_elbow_point_bounds [(1 : ℚ), 9/10, 4/5, 7/10]
      (by norm_num [List.Sorted])).2 (by norm_num)).1,
    ((claim1_elbow_point_bounds [(1 : ℚ), 9/10, 4/5, 7/10]
      (by norm_num [List.Sorted])).2 (by norm_num)).2⟩

end Docc
